import Mathlib

/-!
Shallow embedding of the local PDF retrieval subsystem (`rag_utils.py`):
chunking, indexing, persistence and similarity search of the `RAGSystem`
class, together with the semantics of the FAISS flat L2 index and the
Python string/list primitives the code relies on.
-/

namespace RAGModel

/-! ## Python string and list primitives -/

/-- Accumulator loop of Python `str.split()` with no argument: walk the
characters, collecting maximal runs of non-whitespace characters and
dropping the whitespace between them. `acc` holds the current word
reversed. -/
def splitWsAux : List Char → List Char → List String
  | [], acc => if acc.isEmpty then [] else [String.mk acc.reverse]
  | c :: cs, acc =>
    if c.isWhitespace then
      if acc.isEmpty then splitWsAux cs []
      else String.mk acc.reverse :: splitWsAux cs []
    else splitWsAux cs (c :: acc)

/-- Python `text.split()`: split on runs of whitespace, no empty pieces. -/
def pySplit (s : String) : List String := splitWsAux s.data []

/-- Python `sep.join(xs)`. -/
def pyJoin (sep : String) : List String → String
  | [] => ""
  | [x] => x
  | x :: rest => x ++ sep ++ pyJoin sep rest

/-- Python `s.strip()`: remove leading and trailing whitespace. -/
def pyStrip (s : String) : String :=
  String.mk (((s.data.dropWhile Char.isWhitespace).reverse.dropWhile
    Char.isWhitespace).reverse)

/-- Python `len(s)` for a string (character count). -/
def pyLen (s : String) : Nat := s.data.length

/-- Python `range(0, n, step)` over a nonnegative stop `n`: raises
`ValueError` when `step = 0`, is empty when `step < 0`, and otherwise
yields `0, step, 2*step, ...` strictly below `n`. -/
def pyRange (n : Nat) (step : Int) : Except String (List Nat) :=
  if step = 0 then .error "ValueError: range() arg 3 must not be zero"
  else if step < 0 then .ok []
  else .ok ((List.range n).filter (fun i => i % step.toNat = 0))

/-- Effective stop position of a Python slice `xs[_ : stop]` over a list
of length `len`: a negative `stop` counts from the end. -/
def pySliceStop (len : Nat) (stop : Int) : Nat :=
  if stop < 0 then ((len : Int) + stop).toNat else min stop.toNat len

/-- Python slice `xs[start : stop]` for a nonnegative `start`. -/
def pySlice {α : Type} (xs : List α) (start : Nat) (stop : Int) : List α :=
  (xs.take (pySliceStop xs.length stop)).drop start

/-- Python list indexing `xs[i]`: a negative `i` counts from the end;
out of range raises `IndexError`, modelled as `none`. -/
def pyGetElem {α : Type} (xs : List α) (i : Int) : Option α :=
  if i < 0 then xs.get? ((xs.length : Int) + i).toNat
  else xs.get? i.toNat

/-! ## `RAGSystem.chunk_text` -/

/-- `RAGSystem.chunk_text`: split `text` into words, walk the word offsets
`range(0, len(words), chunk_size - overlap)`, join each window
`words[i : i + chunk_size]` with single spaces, and keep only the chunks
whose stripped character length exceeds 50. -/
def chunk_text (text : String) (chunk_size : Int) (overlap : Int) :
    Except String (List String) := do
  let words := pySplit text
  let offsets ← pyRange words.length (chunk_size - overlap)
  let chunks := offsets.map
    (fun i => pyJoin " " (pySlice words i ((i : Int) + chunk_size)))
  return chunks.filter (fun c => 50 < pyLen (pyStrip c))

/-! ## Data model -/

/-- One extracted page as built by `extract_text_from_pdf`. -/
structure PageData where
  text : String
  page_num : Nat
  filename : String
  deriving DecidableEq

/-- One chunk record as built by `index_pdfs` (the dict with keys
`text`, `filename`, `page_num`, `chunk_idx`). -/
structure Chunk where
  text : String
  filename : String
  page_num : Nat
  chunk_idx : Nat
  deriving DecidableEq

/-- A source PDF: its filename and, when `pypdf` can parse it, the raw
text of its pages; `none` models a file on which `PdfReader` raises. -/
structure PDF where
  name : String
  pages : Option (List String)
  deriving DecidableEq

/-- The manifest dict written to `metadata.json`. -/
structure Metadata where
  num_pdfs : Nat
  num_chunks : Nat
  pdf_files : List String
  chunk_size : Int
  embedding_model : String
  deriving DecidableEq

/-- Embedding vectors, `384`-dimensional floats in the source, modelled
as rational-valued vectors. -/
abbrev Vec : Type := List ℚ

/-- A FAISS `IndexFlatL2`: the stored vectors in insertion order. -/
abbrev FaissIndex : Type := List Vec

/-- In-memory state of a `RAGSystem` instance: `self.index`,
`self.chunks` and `self.metadata` (`none` models the initial `None` /
empty dict). -/
structure RAGState where
  index : Option FaissIndex
  chunks : List Chunk
  metadata : Option Metadata
  deriving DecidableEq

/-- The three persisted artifacts in `db_folder`; a `none` field models
an absent or unparseable file (reading it raises). -/
structure Store where
  indexFile : Option FaissIndex
  chunksFile : Option (List Chunk)
  metadataFile : Option Metadata
  deriving DecidableEq

/-- `RAGSystem.extract_text_from_pdf`: per-page text with 1-based page
numbers, skipping pages whose stripped text is empty; a parse failure is
caught and yields the empty page list. -/
def extract_text_from_pdf (pdf : PDF) : List PageData :=
  match pdf.pages with
  | none => []
  | some texts =>
    texts.enum.filterMap (fun p =>
      if pyStrip p.2 = "" then none
      else some ⟨p.2, p.1 + 1, pdf.name⟩)

/-! ## FAISS flat L2 search -/

/-- Squared Euclidean distance, the metric `IndexFlatL2` reports. -/
def sqL2 (u v : Vec) : ℚ := ((u.zip v).map (fun p => (p.1 - p.2) ^ 2)).sum

/-- `FLT_MAX`, the distance FAISS places in result slots it could not
fill (exactly `(2^24 - 1) * 2^104`). -/
def faissPadDistance : ℚ := (2 ^ 24 - 1) * 2 ^ 104

/-- Insert into a list sorted by `le`. -/
def insertSorted {α : Type} (le : α → α → Bool) (x : α) : List α → List α
  | [] => [x]
  | y :: ys => if le x y then x :: y :: ys else y :: insertSorted le x ys

/-- Insertion sort by `le`. -/
def sortBy {α : Type} (le : α → α → Bool) : List α → List α
  | [] => []
  | x :: xs => insertSorted le x (sortBy le xs)

/-- `IndexFlatL2.search`: return `k` `(label, distance)` pairs, the
stored vectors nearest to `q` first, sorted ascending by (squared L2)
distance, and — as FAISS documents when the index holds fewer than `k`
vectors — the remaining slots padded with label `-1` and distance
`FLT_MAX`. Ties are broken by the lower label, a deterministic
refinement of FAISS's unspecified tie order. -/
def faissSearch (db : List Vec) (q : Vec) (k : Nat) : List (Int × ℚ) :=
  let scored := db.enum.map (fun p => ((p.1 : Int), sqL2 q p.2))
  let sorted := sortBy
    (fun a b => decide (a.2 < b.2) || (decide (a.2 = b.2) && decide (a.1 ≤ b.1)))
    scored
  let top := sorted.take k
  top ++ List.replicate (k - top.length) ((-1 : Int), faissPadDistance)

/-! ## Load, search, index -/

/-- `RAGSystem.load_index`: returns `False` when the index file is
absent; otherwise reads the three artifacts in order, assigning each to
`self` as it is read, and returns `False` from the `except` handler as
soon as one fails — fields already assigned keep their new values. -/
def load_index (st : RAGState) (disk : Store) : Bool × RAGState :=
  match disk.indexFile with
  | none => (false, st)
  | some ix =>
    let st1 := { st with index := some ix }
    match disk.chunksFile with
    | none => (false, st1)
    | some cs =>
      let st2 := { st1 with chunks := cs }
      match disk.metadataFile with
      | none => (false, st2)
      | some md => (true, { st2 with metadata := some md })

/-- The distance-to-relevance conversion on search results:
`1.0 / (1.0 + distance)`. -/
def relevance (d : ℚ) : ℚ := 1 / (1 + d)

/-- A returned search result: the copied chunk record with the
`relevance_score` key added. -/
structure SearchResult where
  text : String
  filename : String
  page_num : Nat
  chunk_idx : Nat
  relevance_score : ℚ
  deriving DecidableEq

/-- `chunk_data = self.chunks[idx].copy()` followed by
`chunk_data['relevance_score'] = 1/(1+distance)`. -/
def mkResult (c : Chunk) (score : ℚ) : SearchResult :=
  ⟨c.text, c.filename, c.page_num, c.chunk_idx, score⟩

/-- The result-accumulation loop of `RAGSystem.search`: for each
`(idx, distance)` pair, when `idx < len(chunks)` copy the chunk at
Python index `idx` (negative indices count from the end) and attach the
relevance score; an out-of-range access raises `IndexError`. -/
def formatResults (chunks : List Chunk) :
    List (Int × ℚ) → Except String (List SearchResult)
  | [] => .ok []
  | (idx, d) :: rest =>
    if idx < (chunks.length : Int) then
      match pyGetElem chunks idx with
      | some c => do
        let tail ← formatResults chunks rest
        return mkResult c (relevance d) :: tail
      | none => .error "IndexError: list index out of range"
    else formatResults chunks rest

/-- `RAGSystem.search`: lazily load a persisted index when none is
resident (returning `[]` when that load reports failure), embed the
query, run the FAISS search and format the results. The returned state
is the possibly-updated `self`. -/
def search (embed : String → Vec) (st : RAGState) (disk : Store)
    (query : String) (top_k : Nat) :
    Except String (List SearchResult) × RAGState :=
  match st.index with
  | none =>
    let r := load_index st disk
    if r.1 then
      match r.2.index with
      | some ix =>
        (formatResults r.2.chunks (faissSearch ix (embed query) top_k), r.2)
      | none => (.error "AttributeError", r.2)
    else (.ok [], r.2)
  | some ix =>
    (formatResults st.chunks (faissSearch ix (embed query) top_k), st)

/-- Result dict of `RAGSystem.index_pdfs`: the success flag with either
a failure message or the manifest. -/
structure IndexResult where
  success : Bool
  message : String
  manifest : Option Metadata
  deriving DecidableEq

/-- The accumulation loops of `index_pdfs` over the extracted pages:
chunk each page with the fixed overlap 50, build a chunk record per
chunk (with its index within the page) and embed it; a `chunk_text`
error propagates. -/
def collectPages (embed : String → Vec) (chunk_size : Int) :
    List PageData → Except String (List Chunk × List Vec)
  | [] => .ok ([], [])
  | p :: ps => do
    let chunks ← chunk_text p.text chunk_size 50
    let rest ← collectPages embed chunk_size ps
    return (chunks.enum.map (fun q => ⟨q.2, p.filename, p.page_num, q.1⟩)
        ++ rest.1,
      chunks.map embed ++ rest.2)

/-- `RAGSystem.index_pdfs`: fail when the folder holds no PDFs; extract
and chunk every file (a file `pypdf` cannot parse contributes nothing);
fail when no chunk was produced at all; otherwise build the flat index
from the accumulated embeddings, install index, chunks and manifest on
`self`, and report success. On the failure paths `self` is unchanged. -/
def index_pdfs (embed : String → Vec) (pdf_files : List PDF)
    (chunk_size : Int) (st : RAGState) :
    Except String (IndexResult × RAGState) :=
  if pdf_files.isEmpty then .ok (⟨false, "No PDFs found", none⟩, st)
  else do
    let acc ← collectPages embed chunk_size
      ((pdf_files.map extract_text_from_pdf).flatten)
    if acc.1.isEmpty then .ok (⟨false, "No text extracted", none⟩, st)
    else
      let md : Metadata := ⟨pdf_files.length, acc.1.length,
        pdf_files.map PDF.name, chunk_size, "all-MiniLM-L6-v2"⟩
      .ok (⟨true, "", some md⟩, ⟨some acc.2, acc.1, some md⟩)

/-! ## Specification-side definitions -/

instance {ε α : Type} [DecidableEq ε] [DecidableEq α] :
    DecidableEq (Except ε α) := fun x y =>
  match x, y with
  | .ok a, .ok b =>
    if h : a = b then isTrue (congrArg Except.ok h)
    else isFalse (fun hh => h (Except.ok.inj hh))
  | .error a, .error b =>
    if h : a = b then isTrue (congrArg Except.error h)
    else isFalse (fun hh => h (Except.error.inj hh))
  | .ok _, .error _ => isFalse (fun hh => Except.noConfusion hh)
  | .error _, .ok _ => isFalse (fun hh => Except.noConfusion hh)

/-- A word as produced by `str.split()`: nonempty and whitespace-free. -/
def IsWord (w : String) : Prop :=
  w.data ≠ [] ∧ ∀ c ∈ w.data, c.isWhitespace = false

/-- The spec's description of the chunk sequence: starting at the head
of the word list, join the first `W` words as a chunk and advance by
`s = W − O` words, repeating until the offset meets or exceeds the word
count (that is, until no words remain). -/
def specChunkSeq (W s : Nat) (ws : List String) : List String :=
  if _h : ws.isEmpty || s == 0 then []
  else pyJoin " " (ws.take W) :: specChunkSeq W s (ws.drop s)
termination_by ws.length
decreasing_by
  simp only [Bool.or_eq_true, List.isEmpty_iff, beq_iff_eq, not_or] at _h
  have hlen : ws.length ≠ 0 := fun hh => _h.1 (List.eq_nil_of_length_eq_zero hh)
  simp only [List.length_drop]
  omega

/-- The spec's chunker: the window sequence above with the 50-character
floor applied to the stripped chunks. -/
def specChunks (W O : Nat) (ws : List String) : List String :=
  (specChunkSeq W (W - O) ws).filter (fun c => 50 < pyLen (pyStrip c))

/-! ## Helper lemmas: sorting, FAISS search, result formatting -/

theorem mem_insertSorted {α : Type} (le : α → α → Bool) (x : α)
    (xs : List α) (a : α) :
    a ∈ insertSorted le x xs ↔ a = x ∨ a ∈ xs := by
  induction xs with
  | nil => simp [insertSorted]
  | cons y ys ih =>
    simp only [insertSorted]
    split
    · simp
    · simp only [List.mem_cons, ih]
      tauto

theorem mem_sortBy {α : Type} (le : α → α → Bool) (xs : List α) (a : α) :
    a ∈ sortBy le xs ↔ a ∈ xs := by
  induction xs with
  | nil => simp [sortBy]
  | cons x xs ih => simp [sortBy, mem_insertSorted, ih]

theorem length_insertSorted {α : Type} (le : α → α → Bool) (x : α)
    (xs : List α) : (insertSorted le x xs).length = xs.length + 1 := by
  induction xs with
  | nil => simp [insertSorted]
  | cons y ys ih =>
    simp only [insertSorted]
    split
    · simp
    · simp [ih]

theorem length_sortBy {α : Type} (le : α → α → Bool) (xs : List α) :
    (sortBy le xs).length = xs.length := by
  induction xs with
  | nil => rfl
  | cons x xs ih => simp [sortBy, length_insertSorted, ih]

theorem faissSearch_fst_nonneg {db : List Vec} {q : Vec} {k : Nat}
    (hk : k ≤ db.length) : ∀ p ∈ faissSearch db q k, 0 ≤ p.1 := by
  intro p hp
  unfold faissSearch at hp
  simp only at hp
  have hlen : (sortBy
      (fun a b => decide (a.2 < b.2) || (decide (a.2 = b.2) && decide (a.1 ≤ b.1)))
      (db.enum.map (fun p => ((p.1 : Int), sqL2 q p.2)))).length = db.length := by
    rw [length_sortBy, List.length_map, List.enum_length]
  rw [List.length_take, hlen, Nat.min_eq_left hk, Nat.sub_self] at hp
  simp only [List.replicate_zero, List.append_nil] at hp
  have hp' := List.mem_of_mem_take hp
  rw [mem_sortBy] at hp'
  obtain ⟨⟨i, v⟩, _, hpe⟩ := List.mem_map.mp hp'
  rw [← hpe]
  exact Int.ofNat_nonneg i

theorem pyGetElem_mem {α : Type} {xs : List α} {i : Int} {a : α}
    (h : pyGetElem xs i = some a) : a ∈ xs := by
  unfold pyGetElem at h
  split at h <;> exact List.get?_mem h

theorem formatResults_nil_of_nonneg {pairs : List (Int × ℚ)}
    (h : ∀ p ∈ pairs, 0 ≤ p.1) : formatResults [] pairs = .ok [] := by
  induction pairs with
  | nil => rfl
  | cons p rest ih =>
    obtain ⟨idx, d⟩ := p
    have hidx : (0 : Int) ≤ idx := h (idx, d) (List.mem_cons_self _ _)
    unfold formatResults
    rw [if_neg (by simp; omega)]
    exact ih (fun p hp => h p (List.mem_cons_of_mem _ hp))

theorem formatResults_mem {chunks : List Chunk} {pairs : List (Int × ℚ)}
    {res : List SearchResult}
    (h : formatResults chunks pairs = .ok res) :
    ∀ r ∈ res, ∃ c ∈ chunks, ∃ d, r = mkResult c (relevance d) := by
  induction pairs generalizing res with
  | nil =>
    obtain rfl : ([] : List SearchResult) = res := Except.ok.inj h
    intro r hr
    exact absurd hr (List.not_mem_nil r)
  | cons p rest ih =>
    obtain ⟨idx, d⟩ := p
    unfold formatResults at h
    split at h
    · cases hg : pyGetElem chunks idx with
      | none => rw [hg] at h; exact absurd h (by simp)
      | some c =>
        rw [hg] at h
        cases hrest : formatResults chunks rest with
        | error e => rw [hrest] at h; exact absurd h (by simp [Bind.bind, Except.bind])
        | ok tail =>
          rw [hrest] at h
          simp only [Bind.bind, Except.bind, pure, Except.pure] at h
          obtain rfl : mkResult c (relevance d) :: tail = res := Except.ok.inj h
          intro r hr
          rcases List.mem_cons.mp hr with hr | hr
          · exact ⟨c, pyGetElem_mem hg, d, hr⟩
          · exact ih hrest r hr
    · exact ih h

/-! ## Helper lemmas: Python string primitives -/

theorem mk_data (s : String) : String.mk s.data = s := by
  cases s
  rfl

theorem splitWsAux_isWord :
    ∀ (l acc : List Char), (∀ c ∈ acc, c.isWhitespace = false) →
    ∀ w ∈ splitWsAux l acc, IsWord w := by
  intro l
  induction l with
  | nil =>
    intro acc hacc w hw
    simp only [splitWsAux] at hw
    split at hw
    · exact absurd hw (List.not_mem_nil w)
    · rename_i hne
      rw [List.mem_singleton] at hw
      subst hw
      rw [List.isEmpty_iff] at hne
      refine ⟨by simpa using hne, ?_⟩
      intro c hc
      exact hacc c (List.mem_reverse.mp hc)
  | cons c cs ih =>
    intro acc hacc w hw
    simp only [splitWsAux] at hw
    by_cases hc : c.isWhitespace = true
    · rw [if_pos hc] at hw
      split at hw
      · exact ih [] (by simp) w hw
      · rename_i hne
        rw [List.isEmpty_iff] at hne
        rcases List.mem_cons.mp hw with hw | hw
        · subst hw
          refine ⟨by simpa using hne, ?_⟩
          intro x hx
          exact hacc x (List.mem_reverse.mp hx)
        · exact ih [] (by simp) w hw
    · rw [if_neg hc] at hw
      refine ih (c :: acc) ?_ w hw
      intro x hx
      rcases List.mem_cons.mp hx with hx | hx
      · subst hx
        simpa using hc
      · exact hacc x hx

theorem pySplit_isWord (s : String) : ∀ w ∈ pySplit s, IsWord w :=
  splitWsAux_isWord s.data [] (by simp)

theorem splitWsAux_append :
    ∀ (wd : List Char), (∀ c ∈ wd, c.isWhitespace = false) →
    ∀ (l acc : List Char),
      splitWsAux (wd ++ l) acc = splitWsAux l (wd.reverse ++ acc) := by
  intro wd
  induction wd with
  | nil =>
    intro _ l acc
    simp
  | cons c cd ih =>
    intro hwd l acc
    have hc : c.isWhitespace = false := hwd c (List.mem_cons_self _ _)
    simp only [List.cons_append, splitWsAux, hc, Bool.false_eq_true,
      if_false]
    show splitWsAux (cd ++ l) (c :: acc) = _
    rw [ih (fun x hx => hwd x (List.mem_cons_of_mem _ hx))]
    simp [List.append_assoc]

theorem pyJoin_cons_cons (w y : String) (t : List String) :
    pyJoin " " (w :: y :: t) = w ++ " " ++ pyJoin " " (y :: t) := rfl

theorem data_pyJoin_cons (w y : String) (t : List String) :
    (pyJoin " " (w :: y :: t)).data
      = w.data ++ ' ' :: (pyJoin " " (y :: t)).data := by
  rw [pyJoin_cons_cons, String.data_append, String.data_append]
  simp [List.append_assoc]

theorem pySplit_pyJoin :
    ∀ (ws : List String), (∀ w ∈ ws, IsWord w) →
    pySplit (pyJoin " " ws) = ws := by
  intro ws
  induction ws with
  | nil =>
    intro _
    rfl
  | cons w rest ih =>
    intro hws
    have hw : IsWord w := hws w (List.mem_cons_self _ _)
    cases rest with
    | nil =>
      show splitWsAux (pyJoin " " [w]).data [] = [w]
      have : (pyJoin " " [w]).data = w.data ++ [] := by simp [pyJoin]
      rw [this, splitWsAux_append w.data hw.2]
      simp only [splitWsAux, List.append_nil, List.isEmpty_iff,
        List.reverse_eq_nil_iff]
      rw [if_neg hw.1]
      rw [List.reverse_reverse, mk_data]
    | cons y t =>
      show splitWsAux (pyJoin " " (w :: y :: t)).data [] = w :: y :: t
      rw [data_pyJoin_cons, splitWsAux_append w.data hw.2]
      simp only [splitWsAux, List.append_nil, List.isEmpty_iff,
        List.reverse_eq_nil_iff]
      rw [if_pos (by decide), if_neg hw.1, List.reverse_reverse, mk_data]
      exact congrArg (w :: ·)
        (ih (fun x hx => hws x (List.mem_cons_of_mem _ hx)))

theorem pyLen_pyJoin :
    ∀ ws : List String,
      pyLen (pyJoin " " ws) = (ws.map pyLen).sum + (ws.length - 1) := by
  intro ws
  induction ws with
  | nil => rfl
  | cons w rest ih =>
    cases rest with
    | nil => simp [pyJoin, pyLen]
    | cons y t =>
      have hlen : pyLen (pyJoin " " (w :: y :: t))
          = pyLen w + 1 + pyLen (pyJoin " " (y :: t)) := by
        show (pyJoin " " (w :: y :: t)).data.length = _
        rw [data_pyJoin_cons]
        simp only [List.length_append, List.length_cons, pyLen]
        omega
      rw [hlen, ih]
      simp only [List.map_cons, List.sum_cons, List.length_cons]
      omega

theorem data_pyJoin_head :
    ∀ (w : String) (t : List String), w.data ≠ [] →
    ∃ c, ((pyJoin " " (w :: t)).data).head? = some c ∧ c ∈ w.data := by
  intro w t hw
  obtain ⟨c, l, hd⟩ := List.exists_cons_of_ne_nil hw
  refine ⟨c, ?_, by rw [hd]; exact List.mem_cons_self _ _⟩
  cases t with
  | nil =>
    show w.data.head? = some c
    rw [hd]
    rfl
  | cons y t' =>
    rw [data_pyJoin_cons, hd]
    rfl

theorem data_pyJoin_getLast :
    ∀ (ws : List String), (∀ w ∈ ws, IsWord w) → ws ≠ [] →
    ∃ c, ((pyJoin " " ws).data).getLast? = some c
      ∧ c.isWhitespace = false := by
  intro ws
  induction ws with
  | nil =>
    intro _ h
    exact absurd rfl h
  | cons w t ih =>
    intro hws _
    have hw : IsWord w := hws w (List.mem_cons_self _ _)
    cases t with
    | nil =>
      cases hd : w.data.getLast? with
      | none =>
        rw [List.getLast?_eq_none_iff] at hd
        exact absurd hd hw.1
      | some c =>
        have hmem : c ∈ w.data := by
          obtain ⟨hne, rfl⟩ :=
            List.mem_getLast?_eq_getLast (Option.mem_def.mpr hd)
          exact List.getLast_mem hne
        exact ⟨c, hd, hw.2 c hmem⟩
    | cons y t' =>
      obtain ⟨c, hc1, hc2⟩ := ih
        (fun x hx => hws x (List.mem_cons_of_mem _ hx))
        (List.cons_ne_nil y t')
      refine ⟨c, ?_, hc2⟩
      rw [data_pyJoin_cons]
      have hno : ' ' :: (pyJoin " " (y :: t')).data ≠ [] :=
        List.cons_ne_nil _ _
      rw [List.getLast?_append_of_ne_nil _ hno]
      have hne : (pyJoin " " (y :: t')).data ≠ [] := by
        intro hnil
        rw [hnil] at hc1
        exact absurd hc1 (by simp)
      obtain ⟨b, l', hbl⟩ := List.exists_cons_of_ne_nil hne
      rw [hbl, List.getLast?_cons_cons, ← hbl]
      exact hc1

theorem pyStrip_eq_self {s : String}
    (h1 : ∃ c, s.data.head? = some c ∧ c.isWhitespace = false)
    (h2 : ∃ c, s.data.getLast? = some c ∧ c.isWhitespace = false) :
    pyStrip s = s := by
  obtain ⟨c1, hc1, hw1⟩ := h1
  obtain ⟨c2, hc2, hw2⟩ := h2
  unfold pyStrip
  have e1 : s.data.dropWhile Char.isWhitespace = s.data := by
    cases hd : s.data with
    | nil => rfl
    | cons a l =>
      rw [hd] at hc1
      injection hc1 with h
      subst h
      simp [List.dropWhile_cons, hw1]
  rw [e1]
  have e2 : s.data.reverse.dropWhile Char.isWhitespace
      = s.data.reverse := by
    have hrev : s.data.reverse.head? = some c2 := by
      rw [List.head?_reverse]
      exact hc2
    cases hd : s.data.reverse with
    | nil => rfl
    | cons a l =>
      rw [hd] at hrev
      injection hrev with h
      subst h
      simp [List.dropWhile_cons, hw2]
  rw [e2, List.reverse_reverse, mk_data]

theorem pyStrip_pyJoin {ws : List String}
    (h : ∀ w ∈ ws, IsWord w) (hne : ws ≠ []) :
    pyStrip (pyJoin " " ws) = pyJoin " " ws := by
  obtain ⟨w, t, rfl⟩ := List.exists_cons_of_ne_nil hne
  have hw : IsWord w := h w (List.mem_cons_self _ _)
  refine pyStrip_eq_self ?_ ?_
  · obtain ⟨c, hc1, hc2⟩ := data_pyJoin_head w t hw.1
    exact ⟨c, hc1, hw.2 c hc2⟩
  · exact data_pyJoin_getLast (w :: t) h (List.cons_ne_nil w t)

theorem sum_map_pyLen_ge {ws : List String}
    (h : ∀ w ∈ ws, IsWord w) : ws.length ≤ (ws.map pyLen).sum := by
  induction ws with
  | nil => simp
  | cons w t ih =>
    have hw : IsWord w := h w (List.mem_cons_self _ _)
    have h1 : 1 ≤ pyLen w := by
      have := hw.1
      unfold pyLen
      cases hd : w.data with
      | nil => exact absurd hd this
      | cons a l => simp
    have := ih (fun x hx => h x (List.mem_cons_of_mem _ hx))
    simp only [List.map_cons, List.sum_cons, List.length_cons]
    omega

theorem pyJoin_passes_floor {ws : List String}
    (h : ∀ w ∈ ws, IsWord w) (hlen : 26 ≤ ws.length) :
    50 < pyLen (pyStrip (pyJoin " " ws)) := by
  have hne : ws ≠ [] := by
    intro hh
    rw [hh] at hlen
    simp at hlen
  rw [pyStrip_pyJoin h hne, pyLen_pyJoin]
  have := sum_map_pyLen_ge h
  omega

/-! ## Helper lemmas: the chunker against the spec's window description -/

theorem range_filter_mod_decomp {s : Nat} (hs : 0 < s) :
    ∀ n : Nat, 0 < n →
    (List.range n).filter (fun i => i % s = 0)
      = 0 :: ((List.range (n - s)).filter (fun i => i % s = 0)).map
          (· + s) := by
  intro n
  induction n with
  | zero =>
    intro h
    exact absurd h (lt_irrefl 0)
  | succ m ih =>
    intro _
    by_cases hm : 0 < m
    · rw [List.range_succ, List.filter_append, ih hm]
      by_cases hdvd : m % s = 0
      · have hms : s ≤ m :=
          Nat.le_of_dvd hm (Nat.dvd_of_mod_eq_zero hdvd)
        have h1 : m + 1 - s = (m - s) + 1 := by omega
        have h2 : (m - s) % s = 0 := by
          have hadd : m - s + s = m := by omega
          have := Nat.add_mod_right (m - s) s
          rw [hadd] at this
          rw [← this]
          exact hdvd
        rw [h1, List.range_succ, List.filter_append]
        rw [show List.filter (fun i => decide (i % s = 0)) [m] = [m]
          from by simp [List.filter, hdvd]]
        rw [show List.filter (fun i => decide (i % s = 0)) [m - s] = [m - s]
          from by simp [List.filter, h2]]
        rw [List.map_append]
        simp only [List.map_cons, List.map_nil, List.cons_append]
        rw [show m - s + s = m from by omega]
      · have hmod : ∀ k, k % s = m % s → List.filter
            (fun i => decide (i % s = 0)) [k] = [] := by
          intro k hk
          simp [List.filter, hk, hdvd]
        rw [hmod m rfl]
        rw [List.append_nil]
        congr 2
        rcases Nat.lt_or_ge m s with hlt | hge
        · rw [show m + 1 - s = m - s from by omega]
        · have h1 : m + 1 - s = (m - s) + 1 := by omega
          rw [h1, List.range_succ, List.filter_append]
          have h2 : (m - s) % s = m % s := by
            have hadd : m - s + s = m := by omega
            have := Nat.add_mod_right (m - s) s
            rw [hadd] at this
            exact this.symm
          rw [hmod (m - s) h2, List.append_nil]
    · have hm0 : m = 0 := by omega
      subst hm0
      have h1 : 1 - s = 0 := by omega
      rw [h1]
      simp [List.range_succ, List.filter]

theorem take_min_length {α : Type} (xs : List α) (a : Nat) :
    xs.take (min a xs.length) = xs.take a := by
  rcases Nat.le_total a xs.length with h | h
  · rw [Nat.min_eq_left h]
  · rw [Nat.min_eq_right h, List.take_length, List.take_of_length_le h]

theorem pySlice_zero (ws : List String) (W : Nat) :
    pySlice ws 0 (((0 : Nat) : Int) + (W : Int)) = ws.take W := by
  unfold pySlice pySliceStop
  rw [if_neg (by omega)]
  rw [show (((0 : Nat) : Int) + (W : Int)).toNat = W from by omega]
  rw [take_min_length, List.drop_zero]

theorem pySlice_shift {α : Type} (xs : List α) (i s W : Nat) :
    pySlice xs (i + s) (((i + s : Nat) : Int) + (W : Int))
      = pySlice (xs.drop s) i ((i : Int) + (W : Int)) := by
  unfold pySlice pySliceStop
  rw [if_neg (by omega), if_neg (by omega)]
  rw [show (((i + s : Nat) : Int) + (W : Int)).toNat = i + s + W from by
    omega]
  rw [show (((i : Nat) : Int) + (W : Int)).toNat = i + W from by omega]
  rw [List.drop_take, List.drop_take, List.drop_drop, List.length_drop]
  rw [show s + i = i + s from by omega]
  congr 1
  omega

theorem windows_eq_specChunkSeq (W s : Nat) (hs : 0 < s) :
    ∀ (n : Nat) (ws : List String), ws.length = n →
    ((List.range ws.length).filter (fun i => i % s = 0)).map
        (fun i => pyJoin " " (pySlice ws i ((i : Int) + (W : Int))))
      = specChunkSeq W s ws := by
  intro n
  induction n using Nat.strong_induction_on with
  | _ n ih =>
    intro ws hlen
    cases hws : ws with
    | nil => simp [specChunkSeq]
    | cons w t =>
      subst hws
      rw [specChunkSeq]
      rw [dif_neg (by simp; omega)]
      rw [range_filter_mod_decomp hs (w :: t).length (by simp)]
      rw [List.map_cons, List.map_map]
      congr 1
      · exact congrArg (pyJoin " ") (pySlice_zero (w :: t) W)
      · have hfun : ∀ i ∈ (List.range ((w :: t).length - s)).filter
            (fun i => i % s = 0),
            ((fun i => pyJoin " " (pySlice (w :: t) i ((i : Int) + (W : Int))))
                ∘ (fun x => x + s)) i
              = pyJoin " " (pySlice ((w :: t).drop s) i
                  ((i : Int) + (W : Int))) := by
          intro i _
          show pyJoin " " (pySlice (w :: t) (i + s)
              (((i + s : Nat) : Int) + (W : Int))) = _
          exact congrArg (pyJoin " ") (pySlice_shift (w :: t) i s W)
        rw [List.map_congr_left hfun]
        rw [show (w :: t).length - s = ((w :: t).drop s).length from
          (List.length_drop s (w :: t)).symm]
        exact ih ((w :: t).drop s).length
          (by rw [List.length_drop]; subst hlen; simp; omega)
          ((w :: t).drop s) rfl

theorem chunk_text_eq_spec (text : String) (W O : Nat) (h : O < W) :
    chunk_text text (W : Int) (O : Int)
      = .ok (specChunks W O (pySplit text)) := by
  unfold chunk_text specChunks
  have hrange : pyRange (pySplit text).length ((W : Int) - (O : Int))
      = .ok ((List.range (pySplit text).length).filter
          (fun i => i % ((W : Int) - (O : Int)).toNat = 0)) := by
    unfold pyRange
    rw [if_neg (by omega), if_neg (by omega)]
  simp only [hrange]
  show Except.ok ((((List.range (pySplit text).length).filter
      (fun i => i % ((W : Int) - (O : Int)).toNat = 0)).map
        (fun i => pyJoin " " (pySlice (pySplit text) i
          ((i : Int) + (W : Int))))).filter
        (fun c => 50 < pyLen (pyStrip c))) = _
  rw [show ((W : Int) - (O : Int)).toNat = W - O from by omega]
  rw [windows_eq_specChunkSeq W (W - O) (by omega) (pySplit text).length
    (pySplit text) rfl]

theorem except_bind_ok {ε α β : Type} (a : α) (f : α → Except ε β) :
    (Except.ok a : Except ε α) >>= f = f a := rfl

theorem specChunkSeq_nil (W s : Nat) : specChunkSeq W s [] = [] := by
  rw [specChunkSeq]
  rfl

theorem specChunkSeq_unfold_pos (W s : Nat) (ws : List String)
    (hws : ws ≠ []) (hs : s ≠ 0) :
    specChunkSeq W s ws
      = pyJoin " " (ws.take W) :: specChunkSeq W s (ws.drop s) := by
  rw [specChunkSeq]
  rw [dif_neg]
  simp [List.isEmpty_iff, hws, hs]

theorem specChunkSeq_at_1200 (ws : List String) (hlen : ws.length = 1200) :
    specChunkSeq 500 450 ws
      = [pyJoin " " (ws.take 500), pyJoin " " ((ws.drop 450).take 500),
         pyJoin " " (ws.drop 900)] := by
  have h1 : ws ≠ [] := by
    intro hh
    rw [hh] at hlen
    simp at hlen
  have hd1 : (ws.drop 450).length = 750 := by
    rw [List.length_drop, hlen]
  have hd2 : (ws.drop 900).length = 300 := by
    rw [List.length_drop, hlen]
  have h2 : ws.drop 450 ≠ [] := by
    intro hh
    rw [hh] at hd1
    simp at hd1
  have h3 : ws.drop 900 ≠ [] := by
    intro hh
    rw [hh] at hd2
    simp at hd2
  rw [specChunkSeq_unfold_pos _ _ _ h1 (by omega)]
  rw [specChunkSeq_unfold_pos _ _ _ h2 (by omega)]
  rw [List.drop_drop, show (450 : Nat) + 450 = 900 from rfl]
  rw [specChunkSeq_unfold_pos _ _ _ h3 (by omega)]
  rw [List.drop_drop, show (900 : Nat) + 450 = 1350 from rfl]
  have h4 : ws.drop 1350 = [] := by
    apply List.drop_eq_nil_of_le
    omega
  rw [h4, specChunkSeq_nil]
  have h5 : (ws.drop 900).take 500 = ws.drop 900 :=
    List.take_of_length_le (by omega)
  rw [h5]

/-! ## Helper lemmas: chunker totality regimes -/

theorem chunk_text_isOk (text : String) (W O : Int) (h : O < W) :
    ∃ l, chunk_text text W O = .ok l := by
  have hr : pyRange (pySplit text).length (W - O)
      = .ok ((List.range (pySplit text).length).filter
          (fun i => i % (W - O).toNat = 0)) := by
    unfold pyRange
    rw [if_neg (by omega), if_neg (by omega)]
  unfold chunk_text
  simp only [hr]
  exact ⟨_, rfl⟩

theorem chunk_text_step_zero (text : String) (W : Int) :
    chunk_text text W W
      = .error "ValueError: range() arg 3 must not be zero" := by
  have hr : pyRange (pySplit text).length (W - W)
      = .error "ValueError: range() arg 3 must not be zero" := by
    unfold pyRange
    rw [if_pos (by omega)]
  unfold chunk_text
  simp only [hr]
  rfl

theorem chunk_text_neg_step (text : String) (W O : Int) (h : W < O) :
    chunk_text text W O = .ok [] := by
  have hr : pyRange (pySplit text).length (W - O) = .ok [] := by
    unfold pyRange
    rw [if_neg (by omega), if_pos (by omega)]
  unfold chunk_text
  simp only [hr]
  rfl

/-! ## Helper lemmas: corpus indexing -/

theorem collectPages_embeddings (embed : String → Vec) (cs : Int) :
    ∀ (ps : List PageData) (ac : List Chunk) (ae : List Vec),
    collectPages embed cs ps = .ok (ac, ae) →
    ae = ac.map (fun c => embed c.text) := by
  intro ps
  induction ps with
  | nil =>
    intro ac ae h
    obtain h' := Except.ok.inj h
    cases h'
    rfl
  | cons p ps ih =>
    intro ac ae h
    unfold collectPages at h
    cases hct : chunk_text p.text cs 50 with
    | error e =>
      rw [hct] at h
      exact absurd h (by simp [Bind.bind, Except.bind])
    | ok chunks =>
      rw [hct] at h
      cases hrest : collectPages embed cs ps with
      | error e =>
        rw [hrest] at h
        exact absurd h (by simp [Bind.bind, Except.bind])
      | ok rest =>
        rw [hrest] at h
        simp only [Bind.bind, Except.bind, pure, Except.pure] at h
        obtain h' := Except.ok.inj h
        obtain ⟨h1, h2⟩ := Prod.mk.injEq .. ▸ h'
        subst h1 h2
        rw [List.map_append, List.map_map]
        congr 1
        · show chunks.map embed = chunks.enum.map
            ((fun c => embed c.text)
              ∘ (fun q => (⟨q.2, p.filename, p.page_num, q.1⟩ : Chunk)))
          show chunks.map embed = chunks.enum.map (fun q => embed q.2)
          rw [show (fun q : Nat × String => embed q.2)
            = embed ∘ Prod.snd from rfl]
          rw [← List.map_map, List.enum_map_snd]
        · exact ih _ _ hrest

theorem collectPages_ok_of_pos (embed : String → Vec) (cs : Int)
    (hcs : 50 < cs) :
    ∀ ps : List PageData, ∃ ac ae, collectPages embed cs ps = .ok (ac, ae) := by
  intro ps
  induction ps with
  | nil => exact ⟨[], [], rfl⟩
  | cons p ps ih =>
    obtain ⟨ac, ae, ihh⟩ := ih
    obtain ⟨l, hl⟩ := chunk_text_isOk p.text cs 50 (by omega)
    exact ⟨l.enum.map (fun q => ⟨q.2, p.filename, p.page_num, q.1⟩) ++ ac,
      l.map embed ++ ae, by unfold collectPages; rw [hl, ihh]; rfl⟩

theorem collectPages_le50 (embed : String → Vec) (cs : Int)
    (hcs : cs ≤ 50) :
    ∀ ps : List PageData, collectPages embed cs ps = .ok ([], [])
      ∨ ∃ e, collectPages embed cs ps = .error e := by
  intro ps
  induction ps with
  | nil =>
    left
    rfl
  | cons p ps ih =>
    rcases lt_or_eq_of_le hcs with hlt | heq
    · have h1 : chunk_text p.text cs 50 = .ok [] :=
        chunk_text_neg_step _ _ _ hlt
      rcases ih with ihh | ⟨e, ihh⟩
      · left
        unfold collectPages
        rw [h1, ihh]
        rfl
      · right
        refine ⟨e, ?_⟩
        unfold collectPages
        rw [h1, ihh]
        rfl
    · right
      refine ⟨"ValueError: range() arg 3 must not be zero", ?_⟩
      unfold collectPages
      rw [heq, chunk_text_step_zero]
      rfl

theorem index_pdfs_empty (embed : String → Vec) (cs : Int) (st : RAGState) :
    index_pdfs embed [] cs st = .ok (⟨false, "No PDFs found", none⟩, st) :=
  rfl

theorem index_pdfs_no_text (embed : String → Vec) (files : List PDF)
    (cs : Int) (st : RAGState) (ae : List Vec) (hne : files ≠ [])
    (hcollect : collectPages embed cs
      ((files.map extract_text_from_pdf).flatten) = .ok ([], ae)) :
    index_pdfs embed files cs st
      = .ok (⟨false, "No text extracted", none⟩, st) := by
  unfold index_pdfs
  rw [if_neg (by simp [List.isEmpty_iff, hne])]
  simp only [hcollect]
  rfl

theorem index_pdfs_success (embed : String → Vec) (files : List PDF)
    (cs : Int) (st : RAGState) (ac : List Chunk) (ae : List Vec)
    (hne : files ≠ []) (hac : ac ≠ [])
    (hcollect : collectPages embed cs
      ((files.map extract_text_from_pdf).flatten) = .ok (ac, ae)) :
    index_pdfs embed files cs st
      = .ok (⟨true, "", some ⟨files.length, ac.length, files.map PDF.name,
          cs, "all-MiniLM-L6-v2"⟩⟩,
        ⟨some ae, ac, some ⟨files.length, ac.length, files.map PDF.name,
          cs, "all-MiniLM-L6-v2"⟩⟩) := by
  unfold index_pdfs
  rw [if_neg (by simp [List.isEmpty_iff, hne])]
  simp only [hcollect, except_bind_ok]
  rw [if_neg (by simp [List.isEmpty_iff, hac])]

theorem index_pdfs_error (embed : String → Vec) (files : List PDF)
    (cs : Int) (st : RAGState) (e : String) (hne : files ≠ [])
    (hcollect : collectPages embed cs
      ((files.map extract_text_from_pdf).flatten) = .error e) :
    index_pdfs embed files cs st = .error e := by
  unfold index_pdfs
  rw [if_neg (by simp [List.isEmpty_iff, hne])]
  simp only [hcollect]
  rfl

/-! ## Claim theorems -/

/-- Claim C4: the distance-to-relevance mapping `1/(1+d)` used on search
results is strictly decreasing on nonnegative distances, always lies in
`(0, 1]`, maps distance `0` exactly to `1`, and consequently turns a
distance-ascending list into a relevance-descending list. -/
theorem relevance_monotone_bounds :
    (∀ d1 d2 : ℚ, 0 ≤ d1 → d1 < d2 → relevance d2 < relevance d1)
    ∧ (∀ d : ℚ, 0 ≤ d → 0 < relevance d ∧ relevance d ≤ 1)
    ∧ relevance 0 = 1
    ∧ (∀ ds : List ℚ, (∀ d ∈ ds, 0 ≤ d) → ds.Pairwise (· < ·) →
        (ds.map relevance).Pairwise (· > ·)) := by
  have hmono : ∀ d1 d2 : ℚ, 0 ≤ d1 → d1 < d2 →
      relevance d2 < relevance d1 := by
    intro d1 d2 h1 h12
    unfold relevance
    exact one_div_lt_one_div_of_lt (by linarith) (by linarith)
  refine ⟨hmono, ?_, ?_, ?_⟩
  · intro d hd
    unfold relevance
    constructor
    · exact div_pos one_pos (by linarith)
    · rw [div_le_one (by linarith)]
      linarith
  · unfold relevance
    norm_num
  · intro ds hpos hsorted
    rw [List.pairwise_map]
    refine List.Pairwise.imp_of_mem ?_ hsorted
    intro a b ha hb hab
    exact hmono a b (hpos a ha) hab

/-- Concrete instantiation of `relevance_monotone_bounds`. -/
theorem relevance_monotone_bounds_witness :
    (0 : ℚ) ≤ 0 ∧ (0 : ℚ) < 1 ∧ relevance 1 < relevance 0 :=
  ⟨le_refl 0, by norm_num,
    relevance_monotone_bounds.1 0 1 (le_refl 0) (by norm_num)⟩

/-- Claim C7: with no in-memory index and no persisted index file on
disk, `search` returns the empty list (and leaves the state unchanged)
for every query and every `k`, without raising. -/
theorem search_no_index_no_store_empty :
    ∀ (embed : String → Vec) (st : RAGState) (disk : Store)
      (q : String) (k : Nat),
    st.index = none → disk.indexFile = none →
    search embed st disk q k = (.ok [], st) := by
  intro embed st disk q k h1 h2
  obtain ⟨sti, stc, stm⟩ := st
  obtain ⟨di, dc, dm⟩ := disk
  simp only at h1 h2
  subst h1 h2
  rfl

/-- Concrete instantiation of `search_no_index_no_store_empty`. -/
theorem search_no_index_no_store_empty_witness :
    (⟨none, [], none⟩ : RAGState).index = none
    ∧ (⟨none, none, none⟩ : Store).indexFile = none
    ∧ search (fun _ => []) ⟨none, [], none⟩ ⟨none, none, none⟩ "q" 5
        = (.ok [], ⟨none, [], none⟩) :=
  ⟨rfl, rfl, search_no_index_no_store_empty _ _ _ "q" 5 rfl rfl⟩

/-- Claim C2: after every successful `index_pdfs` run the resident
vector index and chunk array have equal length, and the vector at every
position `i` is the embedding of the text of chunk `i`. -/
theorem index_pdfs_alignment :
    ∀ (embed : String → Vec) (files : List PDF) (cs : Int)
      (st : RAGState) (r : IndexResult) (st' : RAGState),
    index_pdfs embed files cs st = .ok (r, st') → r.success = true →
    ∃ ix, st'.index = some ix
      ∧ ix.length = st'.chunks.length
      ∧ ∀ i : Nat, ix[i]? = (st'.chunks[i]?).map (fun c => embed c.text) := by
  intro embed files cs st r st' h hsucc
  unfold index_pdfs at h
  split at h
  · obtain h' := Except.ok.inj h
    cases h'
    exact absurd hsucc (by simp)
  · cases hcollect : collectPages embed cs
        ((files.map extract_text_from_pdf).flatten) with
    | error e =>
      rw [hcollect] at h
      exact absurd h (by simp [Bind.bind, Except.bind])
    | ok acc =>
      rw [hcollect, except_bind_ok] at h
      split at h
      · obtain h' := Except.ok.inj h
        cases h'
        exact absurd hsucc (by simp)
      · obtain h' := Except.ok.inj h
        cases h'
        have hemb : acc.2 = acc.1.map (fun c => embed c.text) :=
          collectPages_embeddings embed cs _ acc.1 acc.2 hcollect
        refine ⟨acc.2, rfl, ?_, ?_⟩
        · rw [hemb, List.length_map]
        · intro i
          rw [hemb, List.getElem?_map]

/-- Concrete instantiation of `index_pdfs_alignment`: one PDF with one
60-character page, embedded by string length. -/
theorem index_pdfs_alignment_witness :
    index_pdfs (fun s => [(pyLen s : ℚ)])
        [⟨"doc.pdf", some [String.mk (List.replicate 60 'a')]⟩] 500
        ⟨none, [], none⟩
      = .ok (⟨true, "", some ⟨1, 1, ["doc.pdf"], 500, "all-MiniLM-L6-v2"⟩⟩,
          ⟨some [[60]],
           [⟨String.mk (List.replicate 60 'a'), "doc.pdf", 1, 0⟩],
           some ⟨1, 1, ["doc.pdf"], 500, "all-MiniLM-L6-v2"⟩⟩)
    ∧ (⟨true, "", some ⟨1, 1, ["doc.pdf"], 500,
        "all-MiniLM-L6-v2"⟩⟩ : IndexResult).success = true
    ∧ ∃ ix, (⟨some [[60]],
        [⟨String.mk (List.replicate 60 'a'), "doc.pdf", 1, 0⟩],
        some ⟨1, 1, ["doc.pdf"], 500,
          "all-MiniLM-L6-v2"⟩⟩ : RAGState).index = some ix
      ∧ ix.length = (⟨some [[60]],
          [⟨String.mk (List.replicate 60 'a'), "doc.pdf", 1, 0⟩],
          some ⟨1, 1, ["doc.pdf"], 500,
            "all-MiniLM-L6-v2"⟩⟩ : RAGState).chunks.length
      ∧ ∀ i : Nat, ix[i]? = ((⟨some [[60]],
          [⟨String.mk (List.replicate 60 'a'), "doc.pdf", 1, 0⟩],
          some ⟨1, 1, ["doc.pdf"], 500,
            "all-MiniLM-L6-v2"⟩⟩ : RAGState).chunks[i]?).map
          (fun c => (fun s => [(pyLen s : ℚ)]) c.text) := by
  set_option maxRecDepth 10000 in
  have h : index_pdfs (fun s => [(pyLen s : ℚ)])
      [⟨"doc.pdf", some [String.mk (List.replicate 60 'a')]⟩] 500
      ⟨none, [], none⟩
    = .ok (⟨true, "", some ⟨1, 1, ["doc.pdf"], 500, "all-MiniLM-L6-v2"⟩⟩,
        ⟨some [[60]],
         [⟨String.mk (List.replicate 60 'a'), "doc.pdf", 1, 0⟩],
         some ⟨1, 1, ["doc.pdf"], 500, "all-MiniLM-L6-v2"⟩⟩) := by decide
  exact ⟨h, rfl, index_pdfs_alignment _ _ _ _ _ _ h rfl⟩

/-- Claim C8: with a chunk size above the fixed overlap of 50,
`index_pdfs` never raises; it returns the structured failure
`No PDFs found` exactly when the folder has no PDFs, the structured
failure `No text extracted` exactly when the files together produce no
chunks, and otherwise success together with the manifest. -/
theorem index_pdfs_failure_modes :
    ∀ (embed : String → Vec) (files : List PDF) (cs : Int)
      (st : RAGState), 50 < cs →
    ∃ ac ae, collectPages embed cs
        ((files.map extract_text_from_pdf).flatten) = .ok (ac, ae)
      ∧ (files = [] → index_pdfs embed files cs st
          = .ok (⟨false, "No PDFs found", none⟩, st))
      ∧ (files ≠ [] → ac = [] → index_pdfs embed files cs st
          = .ok (⟨false, "No text extracted", none⟩, st))
      ∧ (files ≠ [] → ac ≠ [] → index_pdfs embed files cs st
          = .ok (⟨true, "", some ⟨files.length, ac.length,
              files.map PDF.name, cs, "all-MiniLM-L6-v2"⟩⟩,
            ⟨some ae, ac, some ⟨files.length, ac.length,
              files.map PDF.name, cs, "all-MiniLM-L6-v2"⟩⟩)) := by
  intro embed files cs st hcs
  obtain ⟨ac, ae, hcollect⟩ := collectPages_ok_of_pos embed cs hcs
    ((files.map extract_text_from_pdf).flatten)
  refine ⟨ac, ae, hcollect, ?_, ?_, ?_⟩
  · intro h
    subst h
    exact index_pdfs_empty embed cs st
  · intro hne hac
    subst hac
    exact index_pdfs_no_text embed files cs st ae hne hcollect
  · intro hne hac
    exact index_pdfs_success embed files cs st ac ae hne hac hcollect

/-- Concrete instantiation of `index_pdfs_failure_modes` at the empty
folder. -/
theorem index_pdfs_failure_modes_witness :
    (50 : Int) < 500
    ∧ ∃ ac ae, collectPages (fun _ => ([] : Vec)) 500
        ((([] : List PDF).map extract_text_from_pdf).flatten) = .ok (ac, ae)
      ∧ (([] : List PDF) = [] →
          index_pdfs (fun _ => ([] : Vec)) [] 500 ⟨none, [], none⟩
            = .ok (⟨false, "No PDFs found", none⟩, ⟨none, [], none⟩))
      ∧ (([] : List PDF) ≠ [] → ac = [] →
          index_pdfs (fun _ => ([] : Vec)) [] 500 ⟨none, [], none⟩
            = .ok (⟨false, "No text extracted", none⟩, ⟨none, [], none⟩))
      ∧ (([] : List PDF) ≠ [] → ac ≠ [] →
          index_pdfs (fun _ => ([] : Vec)) [] 500 ⟨none, [], none⟩
            = .ok (⟨true, "", some ⟨([] : List PDF).length, ac.length,
                ([] : List PDF).map PDF.name, 500, "all-MiniLM-L6-v2"⟩⟩,
              ⟨some ae, ac, some ⟨([] : List PDF).length, ac.length,
                ([] : List PDF).map PDF.name, 500,
                "all-MiniLM-L6-v2"⟩⟩)) :=
  ⟨by norm_num,
    index_pdfs_failure_modes (fun _ => ([] : Vec)) [] 500 ⟨none, [], none⟩
      (by norm_num)⟩

/-- Claim C9: with `overlap < chunk_size` the chunker is total; with
`chunk_size = overlap` it raises the zero-step `ValueError`; with
`chunk_size < overlap` it returns the empty list for every text; and
since `index_pdfs` fixes the overlap at 50, no indexing run with
`chunk_size ≤ 50` ever reports success. -/
theorem chunk_text_totality_regimes :
    (∀ (text : String) (W O : Int), O < W →
      ∃ l, chunk_text text W O = .ok l)
    ∧ (∀ (text : String) (W : Int), chunk_text text W W
        = .error "ValueError: range() arg 3 must not be zero")
    ∧ (∀ (text : String) (W O : Int), W < O → chunk_text text W O = .ok [])
    ∧ (∀ (embed : String → Vec) (files : List PDF) (cs : Int)
        (st : RAGState) (r : IndexResult) (st' : RAGState), cs ≤ 50 →
        index_pdfs embed files cs st = .ok (r, st') →
        r.success = false) := by
  refine ⟨chunk_text_isOk, chunk_text_step_zero, chunk_text_neg_step, ?_⟩
  intro embed files cs st r st' hcs h
  unfold index_pdfs at h
  split at h
  · obtain h' := Except.ok.inj h
    cases h'
    rfl
  · rcases collectPages_le50 embed cs hcs
        ((files.map extract_text_from_pdf).flatten) with hc | ⟨e, hc⟩
    · rw [hc, except_bind_ok] at h
      rw [if_pos (show (([], []) : List Chunk × List Vec).1.isEmpty = true
        from rfl)] at h
      obtain h' := Except.ok.inj h
      cases h'
      rfl
    · rw [hc] at h
      exact absurd h (by simp [Bind.bind, Except.bind])

/-- Concrete instantiations of `chunk_text_totality_regimes`. -/
theorem chunk_text_totality_regimes_witness :
    ((2 : Int) < 5 ∧ ∃ l, chunk_text "ab" 5 2 = .ok l)
    ∧ chunk_text "ab" 7 7
        = .error "ValueError: range() arg 3 must not be zero"
    ∧ ((3 : Int) < 9 ∧ chunk_text "ab" 3 9 = .ok [])
    ∧ ((50 : Int) ≤ 50
        ∧ index_pdfs (fun _ => ([] : Vec)) [] 50 ⟨none, [], none⟩
            = .ok (⟨false, "No PDFs found", none⟩, ⟨none, [], none⟩)
        ∧ (⟨false, "No PDFs found", none⟩ : IndexResult).success = false) := by
  have h50 : index_pdfs (fun _ => ([] : Vec)) [] 50 ⟨none, [], none⟩
      = .ok (⟨false, "No PDFs found", none⟩, ⟨none, [], none⟩) := rfl
  exact ⟨⟨by norm_num, chunk_text_totality_regimes.1 "ab" 5 2 (by norm_num)⟩,
    chunk_text_totality_regimes.2.1 "ab" 7,
    ⟨by norm_num, chunk_text_totality_regimes.2.2.1 "ab" 3 9 (by norm_num)⟩,
    ⟨by norm_num, h50,
      chunk_text_totality_regimes.2.2.2 _ _ _ _ _ _ (by norm_num) h50⟩⟩

/-- Claim C5 counterexample: when the index file is readable but the
chunk file is not, `load_index` reports failure yet leaves the loaded
vector index resident (the in-memory state changes), and a subsequent
search over that partial state silently returns the empty list. -/
theorem load_index_partial_residue_cex :
    load_index ⟨none, [], none⟩ ⟨some [[0]], none, none⟩
      = (false, ⟨some [[0]], [], none⟩)
    ∧ (⟨some [[0]], [], none⟩ : RAGState) ≠ ⟨none, [], none⟩
    ∧ (search (fun _ => [0]) ⟨some [[0]], [], none⟩
        ⟨some [[0]], none, none⟩ "query" 1).1 = .ok [] := by
  refine ⟨rfl, by decide, by decide⟩

/-- Claim C5 (amended): `load_index` fails with the state unchanged when
the index file itself is absent or unreadable; it reports success
exactly when all three artifacts load; but a failure after the index
file was read leaves the already-loaded artifacts resident (e.g. index
file readable, chunk file not), and a search over such a partial load
(index resident, chunk array empty) silently returns the empty list for
any `k` up to the vector count. -/
theorem load_index_failure_behavior :
    (∀ (st : RAGState) (disk : Store), disk.indexFile = none →
      load_index st disk = (false, st))
    ∧ (∀ (st : RAGState) (disk : Store), (load_index st disk).1 = true ↔
        disk.indexFile ≠ none ∧ disk.chunksFile ≠ none
          ∧ disk.metadataFile ≠ none)
    ∧ (∀ (st : RAGState) (disk : Store) (ix : FaissIndex),
        disk.indexFile = some ix → disk.chunksFile = none →
        load_index st disk = (false, { st with index := some ix }))
    ∧ (∀ (embed : String → Vec) (disk : Store) (ix : FaissIndex)
        (md : Option Metadata) (q : String) (k : Nat), k ≤ ix.length →
        (search embed ⟨some ix, [], md⟩ disk q k).1 = .ok []) := by
  refine ⟨?_, ?_, ?_, ?_⟩
  · intro st disk h
    obtain ⟨di, dc, dm⟩ := disk
    simp only at h
    subst h
    rfl
  · intro st disk
    obtain ⟨di, dc, dm⟩ := disk
    cases di <;> cases dc <;> cases dm <;> simp [load_index]
  · intro st disk ix h1 h2
    obtain ⟨di, dc, dm⟩ := disk
    simp only at h1 h2
    subst h1 h2
    rfl
  · intro embed disk ix md q k hk
    show formatResults ([] : List Chunk) (faissSearch ix (embed q) k)
      = .ok []
    exact formatResults_nil_of_nonneg (faissSearch_fst_nonneg hk)

/-- Concrete instantiations of `load_index_failure_behavior`. -/
theorem load_index_failure_behavior_witness :
    (⟨none, none, none⟩ : Store).indexFile = none
    ∧ load_index ⟨none, [], none⟩ ⟨none, none, none⟩
        = (false, ⟨none, [], none⟩)
    ∧ (1 : Nat) ≤ 1
    ∧ (search (fun _ => [0]) ⟨some [[0]], [], none⟩ ⟨none, none, none⟩
        "q" 1).1 = .ok [] :=
  ⟨rfl, load_index_failure_behavior.1 ⟨none, [], none⟩ ⟨none, none, none⟩ rfl,
    by norm_num,
    load_index_failure_behavior.2.2.2 (fun _ => [0]) ⟨none, none, none⟩
      [[0]] none "q" 1 (by norm_num)⟩

/-- Claim C10 counterexample: the first `search` call on a fresh state
with a fully persisted store lazily loads the index, so the in-memory
chunk array is not unchanged across search calls. -/
theorem search_lazy_load_mutation_cex :
    (⟨none, [], none⟩ : RAGState).chunks = []
    ∧ ((search (fun _ => [0]) ⟨none, [], none⟩
        ⟨some [[0]], some [⟨"c0", "a.pdf", 1, 0⟩],
          some ⟨1, 1, ["a.pdf"], 500, "all-MiniLM-L6-v2"⟩⟩
        "query" 1).2).chunks ≠ ([] : List Chunk) := by
  refine ⟨rfl, by decide⟩

/-- Claim C10 (amended): apart from the lazy load of a persisted index
on first use, `search` never mutates the service state: with an index
resident the post-state equals the pre-state exactly, and every returned
result is a copy of a stored chunk record with the relevance score
attached. -/
theorem search_state_frame :
    ∀ (embed : String → Vec) (st : RAGState) (disk : Store) (q : String)
      (k : Nat) (ix : FaissIndex), st.index = some ix →
    (search embed st disk q k).2 = st
    ∧ ∀ res, (search embed st disk q k).1 = .ok res →
        ∀ r ∈ res, ∃ c ∈ st.chunks, ∃ d, r = mkResult c (relevance d) := by
  intro embed st disk q k ix hix
  obtain ⟨sti, stc, stm⟩ := st
  simp only at hix
  subst hix
  exact ⟨rfl, fun res h r hr => formatResults_mem h r hr⟩

/-- Concrete instantiation of `search_state_frame`. -/
theorem search_state_frame_witness :
    (⟨some [[0]], [], none⟩ : RAGState).index = some [[0]]
    ∧ ((search (fun _ => [0]) ⟨some [[0]], [], none⟩ ⟨none, none, none⟩
          "q" 1).2 = ⟨some [[0]], [], none⟩
      ∧ ∀ res, (search (fun _ => [0]) ⟨some [[0]], [], none⟩
            ⟨none, none, none⟩ "q" 1).1 = .ok res →
          ∀ r ∈ res, ∃ c ∈ (⟨some [[0]], [], none⟩ : RAGState).chunks,
            ∃ d, r = mkResult c (relevance d)) :=
  ⟨rfl, search_state_frame (fun _ => [0]) ⟨some [[0]], [], none⟩
    ⟨none, none, none⟩ "q" 1 [[0]] rfl⟩

/-- Claim C1 evaluation at the failing inputs: FAISS pads missing result
slots with label `-1`; the Python guard `idx < len(chunks)` does not
reject `-1`, and `chunks[-1]` is the last stored chunk. Hence a search
with `k = 2` over one stored vector returns the single chunk twice
rather than once, and a search over an empty (zero-vector) index with
nonzero `k` raises `IndexError` instead of returning an empty result. -/
theorem search_minus_one_padding_eval :
    Except.map (List.map (fun r =>
        (r.text, r.filename, r.page_num, r.chunk_idx)))
      (search (fun _ => [0]) ⟨some [[0]], [⟨"c0", "a.pdf", 1, 0⟩], none⟩
        ⟨none, none, none⟩ "query" 2).1
      = .ok [("c0", "a.pdf", 1, 0), ("c0", "a.pdf", 1, 0)]
    ∧ (search (fun _ => [0]) ⟨some [], [], none⟩ ⟨none, none, none⟩
        "query" 1).1
      = .error "IndexError: list index out of range" := by
  constructor <;> decide

/-- Claim C6 counterexample: a text of 5 words (each 60 characters) is
shorter than the chunk size `W = 10`, yet with overlap `O = 9` the
chunker emits 5 chunks, not at most one. -/
theorem chunk_text_short_text_cex :
    (pySplit (pyJoin " "
        (List.replicate 5 (String.mk (List.replicate 60 'a'))))).length = 5
    ∧ (5 : Nat) < 10
    ∧ Except.map List.length
        (chunk_text (pyJoin " "
          (List.replicate 5 (String.mk (List.replicate 60 'a')))) 10 9)
      = .ok 5 := by
  set_option maxRecDepth 40000 in
  refine ⟨by decide, by norm_num, by decide⟩

/-- Claim C6 (amended): a text of at most `W − O` words yields at most
one chunk (zero when the single window fails the 50-character floor). -/
theorem chunk_text_step_bound_single_chunk :
    ∀ (text : String) (W O : Nat), O < W →
    (pySplit text).length ≤ W - O →
    ∃ l, chunk_text text (W : Int) (O : Int) = .ok l ∧ l.length ≤ 1 := by
  intro text W O h hlen
  refine ⟨_, chunk_text_eq_spec text W O h, ?_⟩
  unfold specChunks
  cases hws : pySplit text with
  | nil =>
    rw [specChunkSeq_nil]
    simp
  | cons w t =>
    rw [hws] at hlen
    rw [specChunkSeq_unfold_pos _ _ _ (List.cons_ne_nil w t) (by omega)]
    have hdrop : (w :: t).drop (W - O) = [] := List.drop_eq_nil_of_le hlen
    rw [hdrop, specChunkSeq_nil]
    exact le_trans (List.length_filter_le _ _) (by simp)

/-- Concrete instantiation of `chunk_text_step_bound_single_chunk`. -/
theorem chunk_text_step_bound_single_chunk_witness :
    (2 : Nat) < 5
    ∧ (pySplit "hello").length ≤ 5 - 2
    ∧ ∃ l, chunk_text "hello" ((5 : Nat) : Int) ((2 : Nat) : Int) = .ok l
        ∧ l.length ≤ 1 :=
  ⟨by norm_num, by decide,
    chunk_text_step_bound_single_chunk "hello" 5 2 (by norm_num) (by decide)⟩

/-- Claim C3: for overlap below chunk size, the chunker produces exactly
the window chunks of the spec — joins of the `W`-word windows at offsets
`0, W−O, 2(W−O), ...` until the offset meets the word count, filtered by
the 50-character floor; in particular every 1200-word text with `W = 500`
and `O = 50` yields exactly the three chunks at word offsets 0, 450 and
900, the last one 300 words long. -/
theorem chunk_text_window_spec :
    (∀ (text : String) (W O : Nat), O < W →
      chunk_text text (W : Int) (O : Int)
        = .ok (specChunks W O (pySplit text)))
    ∧ (∀ text : String, (pySplit text).length = 1200 →
        chunk_text text 500 50
          = .ok [pyJoin " " ((pySplit text).take 500),
                 pyJoin " " (((pySplit text).drop 450).take 500),
                 pyJoin " " ((pySplit text).drop 900)]
          ∧ (pySplit (pyJoin " " ((pySplit text).drop 900))).length
              = 300) := by
  refine ⟨chunk_text_eq_spec, ?_⟩
  intro text hlen
  have hwords : ∀ w ∈ pySplit text, IsWord w := pySplit_isWord text
  have floor1 : 50 < pyLen (pyStrip (pyJoin " "
      ((pySplit text).take 500))) :=
    pyJoin_passes_floor
      (fun w hw => hwords w (List.mem_of_mem_take hw))
      (by rw [List.length_take, hlen]; norm_num)
  have floor2 : 50 < pyLen (pyStrip (pyJoin " "
      (((pySplit text).drop 450).take 500))) :=
    pyJoin_passes_floor
      (fun w hw => hwords w
        (List.mem_of_mem_drop (List.mem_of_mem_take hw)))
      (by rw [List.length_take, List.length_drop, hlen]; norm_num)
  have floor3 : 50 < pyLen (pyStrip (pyJoin " "
      ((pySplit text).drop 900))) :=
    pyJoin_passes_floor
      (fun w hw => hwords w (List.mem_of_mem_drop hw))
      (by rw [List.length_drop, hlen]; norm_num)
  have h := chunk_text_eq_spec text 500 50 (by norm_num)
  rw [show ((500 : Nat) : Int) = (500 : Int) from rfl,
      show ((50 : Nat) : Int) = (50 : Int) from rfl] at h
  constructor
  · rw [h]
    unfold specChunks
    rw [show (500 : Nat) - 50 = 450 from rfl]
    rw [specChunkSeq_at_1200 (pySplit text) hlen]
    simp [List.filter, floor1, floor2, floor3]
  · rw [pySplit_pyJoin _ (fun w hw => hwords w (List.mem_of_mem_drop hw))]
    rw [List.length_drop, hlen]

/-- Concrete instantiations of `chunk_text_window_spec`: a three-word
text for the general window equation, and a concrete 1200-word text for
the end-to-end chunk count. -/
theorem chunk_text_window_spec_witness :
    ((2 : Nat) < 3
      ∧ chunk_text "alpha beta gamma" ((3 : Nat) : Int) ((2 : Nat) : Int)
        = .ok (specChunks 3 2 (pySplit "alpha beta gamma")))
    ∧ (pySplit (pyJoin " " (List.replicate 1200 "w"))).length = 1200
    ∧ chunk_text (pyJoin " " (List.replicate 1200 "w")) 500 50
        = .ok [pyJoin " "
            ((pySplit (pyJoin " " (List.replicate 1200 "w"))).take 500),
          pyJoin " " (((pySplit (pyJoin " "
            (List.replicate 1200 "w"))).drop 450).take 500),
          pyJoin " "
            ((pySplit (pyJoin " " (List.replicate 1200 "w"))).drop 900)]
    ∧ (pySplit (pyJoin " " ((pySplit (pyJoin " "
        (List.replicate 1200 "w"))).drop 900))).length = 300 := by
  have hsplit : pySplit (pyJoin " " (List.replicate 1200 "w"))
      = List.replicate 1200 "w" := by
    refine pySplit_pyJoin _ ?_
    intro w hw
    rw [List.eq_of_mem_replicate hw]
    exact ⟨by decide, by decide⟩
  have hlen : (pySplit (pyJoin " " (List.replicate 1200 "w"))).length
      = 1200 := by
    rw [hsplit, List.length_replicate]
  obtain ⟨h1, h2⟩ := chunk_text_window_spec.2
    (pyJoin " " (List.replicate 1200 "w")) hlen
  exact ⟨⟨by norm_num,
    chunk_text_window_spec.1 "alpha beta gamma" 3 2 (by norm_num)⟩,
    hlen, h1, h2⟩

end RAGModel
